import Mathlib

/-!
Verification development for the narrative-to-dialogue-bubble extractor of
AiComicCrafter (module comic_generator/dialogue_generator.py).  The Python
code is shallowly embedded: strings are lists of characters, the regex-based
quote scan is modelled by an explicit character scan with the same
semantics, and the external spaCy annotation engine is modelled as a record
of functions supplied by the caller (sentence segmentation, tokenisation,
named entities).  All definitions are executable.
-/

/-- A piece of text, modelled as a list of characters (Python `str`). -/
abbrev Text := List Char

/-- The ASCII apostrophe character. -/
def apos : Char := Char.ofNat 39

/-- Left curly single quote U+2018. -/
def lsq : Char := Char.ofNat 8216

/-- Right curly single quote U+2019. -/
def rsq : Char := Char.ofNat 8217

/-- Left curly double quote U+201C. -/
def ldq : Char := Char.ofNat 8220

/-- Right curly double quote U+201D. -/
def rdq : Char := Char.ofNat 8221

/-- ASCII whitespace, the characters stripped by Python `str.strip()` and
used by `str.split()` (space, tab, newline, carriage return, vertical tab,
form feed). -/
def isWs (c : Char) : Bool :=
  c = ' ' || c = '\t' || c = '\n' || c = '\r' || c = Char.ofNat 11 || c = Char.ofNat 12

/-- Python `str.strip()`: drop leading and trailing whitespace. -/
def strip (t : Text) : Text :=
  ((t.dropWhile isWs).reverse.dropWhile isWs).reverse

/-- Python `str.lower()` (ASCII model). -/
def lowerText (t : Text) : Text := t.map Char.toLower

/-- Python slice `t[a:b]` for natural bounds (clamping like Python). -/
def sliceText (t : Text) (a b : Nat) : Text := (t.drop a).take (b - a)

/-- Does `needle` occur at the start of `hay`? -/
def startsIn : Text → Text → Bool
  | [], _ => true
  | _ :: _, [] => false
  | a :: as_, b :: bs => a = b && startsIn as_ bs

/-- Python `needle in hay` substring test. -/
def containsSub (hay needle : Text) : Bool :=
  match hay with
  | [] => decide (needle = [])
  | _ :: rest => startsIn needle hay || containsSub rest needle

/-- Auxiliary scan for `findSub`, keeping the current index. -/
def findSubAux (needle : Text) : Text → Nat → Int
  | [], i => if startsIn needle [] then (i : Int) else -1
  | c :: rest, i => if startsIn needle (c :: rest) then (i : Int) else findSubAux needle rest (i + 1)

/-- Python `hay.find(needle)`: index of the first occurrence, `-1` if none. -/
def findSub (hay needle : Text) : Int := findSubAux needle hay 0

/-- Auxiliary for Python `str.split()`: accumulate the current word
(reversed) while scanning. -/
def splitWsAux : Text → Text → List Text
  | acc, [] => if acc = [] then [] else [acc.reverse]
  | acc, c :: rest =>
    if isWs c then
      if acc = [] then splitWsAux [] rest else acc.reverse :: splitWsAux [] rest
    else splitWsAux (c :: acc) rest

/-- Python `str.split()` with no argument: split on whitespace runs,
discarding empty words. -/
def splitWs (t : Text) : List Text := splitWsAux [] t

/-- Python `str.isupper()` (ASCII model): at least one cased character and
no lower-case character. -/
def pyIsUpper (t : Text) : Bool :=
  t.any (fun c => c.isAlpha) && t.all (fun c => !(c.isLower))

/-! ## Quote Locator

The Python code scans the paragraph with five regular expressions, in this
fixed order (`_find_all_quotes_with_context`):

1. a character class of quote characters with a backreference,
2. straight double quotes,
3. straight single quotes,
4. straight double quotes again (a byte-identical duplicate of pattern 2
   in the source),
5. curly single quotes U+2018 ... U+2019.

Each pattern is of the form: an opening character, a non-greedy non-empty
run of non-newline characters, and a closing character determined by the
opening one.  `re.finditer` semantics: scan left to right, at each position
try to match; on success the match is recorded and scanning resumes at the
match end. -/

/-- One regex match: the quoted content (the capture group) and the
character offsets `[start, stop)` of the whole match. -/
structure RawMatch where
  content : Text
  start : Nat
  stop : Nat
deriving DecidableEq

/-- Find the closing character: scan for `k`, failing on a newline
(`.` does not match newlines).  The accumulator holds the content read so
far, reversed.  Returns the content and the text after the closer. -/
def splitCloseAux (k : Char) : Text → Text → Option (Text × Text)
  | _, [] => none
  | acc, x :: rest =>
    if x = k then some (acc.reverse, rest)
    else if x = '\n' then none
    else splitCloseAux k (x :: acc) rest

/-- Non-greedy match of `(.+?)k` at the start of the text: at least one
content character (which may itself equal `k`), then the nearest closing
`k`, with no newline in between. -/
def splitClose (k : Char) : Text → Option (Text × Text)
  | [] => none
  | x :: rest => if x = '\n' then none else splitCloseAux k [x] rest

/-- `re.finditer` over one pattern family: `close c = some k` when `c` can
open a quote whose closing character is `k`.  `skip` counts positions still
covered by the previous match (scanning resumes only after its end), and
`p` is the current character offset. -/
def scanGenAux (close : Char → Option Char) : Nat → Nat → Text → List RawMatch
  | _, _, [] => []
  | skip + 1, p, _ :: rest => scanGenAux close skip (p + 1) rest
  | 0, p, c :: rest =>
    match close c with
    | some k =>
      match splitClose k rest with
      | some (content, _) =>
        ⟨content, p, p + content.length + 2⟩ ::
          scanGenAux close (content.length + 1) (p + 1) rest
      | none => scanGenAux close 0 (p + 1) rest
    | none => scanGenAux close 0 (p + 1) rest

/-- The quote characters of pattern 1 (the character class). -/
def q1Chars : List Char := ['"', lsq, rsq, ldq, rdq, apos]

/-- Matches of pattern 1: any quote-class character, closed by the same
character (backreference). -/
def p1Matches (t : Text) : List RawMatch :=
  scanGenAux (fun c => if c ∈ q1Chars then some c else none) 0 0 t

/-- Matches of a fixed open/close pair pattern. -/
def pairMatches (o k : Char) (t : Text) : List RawMatch :=
  scanGenAux (fun c => if c = o then some k else none) 0 0 t

/-- A located quote span with its context windows
(`_find_all_quotes_with_context` tuple). -/
structure QuoteInfo where
  content : Text
  start : Nat
  stop : Nat
  before : Text
  after : Text
deriving DecidableEq

/-- Attach the 100-character context windows to a raw match:
`text[max(0, start-100):start]` and `text[end:min(len, end+100)]`. -/
def toQuoteInfo (t : Text) (m : RawMatch) : QuoteInfo :=
  ⟨m.content, m.start, m.stop, sliceText t (m.start - 100) m.start,
    sliceText t m.stop (m.stop + 100)⟩

/-- All candidate quotes, in pattern priority order (the order the Python
code appends them in). -/
def allQuoteCandidates (t : Text) : List QuoteInfo :=
  (p1Matches t ++ pairMatches '"' '"' t ++ pairMatches apos apos t ++
    pairMatches '"' '"' t ++ pairMatches lsq rsq t).map (toQuoteInfo t)

/-- Stable insertion into a list sorted by `le` (the inserted element goes
before the first element it compares `le` to, hence after all
earlier-inserted equal keys once used inside `stableSortBy`). -/
def insertLe (le : α → α → Bool) (x : α) : List α → List α
  | [] => [x]
  | y :: ys => if le x y then x :: y :: ys else y :: insertLe le x ys

/-- Stable insertion sort, modelling Python `list.sort` / `sorted`
(which are stable). -/
def stableSortBy (le : α → α → Bool) : List α → List α
  | [] => []
  | x :: xs => insertLe le x (stableSortBy le xs)

/-- Comparison used by `quotes.sort(key=lambda x: x[1])`. -/
def startLe (a b : QuoteInfo) : Bool := decide (a.start ≤ b.start)

/-- Keep only the first quote seen for each distinct start offset
(the `seen_positions` loop). -/
def dedupByStart (seen : List Nat) : List QuoteInfo → List QuoteInfo
  | [] => []
  | q :: qs =>
    if q.start ∈ seen then dedupByStart seen qs
    else q :: dedupByStart (q.start :: seen) qs

/-- `_find_all_quotes_with_context`: collect candidates from all patterns,
sort stably by start offset, and deduplicate by start offset. -/
def findAllQuotes (t : Text) : List QuoteInfo :=
  dedupByStart [] (stableSortBy startLe (allQuoteCandidates t))

-- Sanity checks on the locator model.
example :
    (findAllQuotes ("he said \"hi\"".data)).map (fun q => (q.content, q.start, q.stop)) =
      [("hi".data, 8, 12)] := by decide

example :
    (findAllQuotes ("\"a ".data ++ apos :: "b".data ++ apos :: " c\"".data)).map
        (fun q => (q.start, q.stop)) = [(0, 9), (3, 6)] := by decide

/-! ## Data model: bubbles, tokens, the external NLP engine -/

/-- The `TextBubble` dataclass: bubble type (a string: "speech", "thought",
"shout" or "scene"), text, and attributed character (empty if unknown). -/
structure TextBubble where
  bubble_type : Text
  text : Text
  character : Text
deriving DecidableEq

/-- A token as produced by the external annotation engine (spaCy), with the
attributes the code reads: surface text, lemma, coarse POS, fine tag,
dependency label, index of the head token, and own index. -/
structure Token where
  text : Text
  lemma_ : Text
  pos_ : Text
  tag_ : Text
  dep_ : Text
  headIdx : Nat
  i : Nat
deriving DecidableEq

/-- A sentence from the annotation engine: its text and its tokens. -/
structure Sentence where
  text : Text
  tokens : List Token
deriving DecidableEq

/-- The external NLP engine (spaCy `nlp` object), modelled as a record of
the capabilities the extractor consumes: sentence segmentation, the token
stream of a document, and its named entities (text, label). -/
structure NlpEngine where
  sents : Text → List Sentence
  tokenize : Text → List Token
  ents : Text → List (Text × Text)

/-- The `ComicBubbleExtractor` object: the three class-level verb sets and
the loaded NLP engine.  No method ever assigns to this state; it is only
read. -/
structure ComicBubbleExtractor where
  speechVerbs : List Text
  thoughtVerbs : List Text
  shoutVerbs : List Text
  nlp : NlpEngine

/-- `SPEECH_VERBS` from the source. -/
def SPEECH_VERBS : List Text :=
  ["say", "said", "says", "ask", "asked", "asks", "reply", "replied",
   "replies", "answer", "answered", "answers", "whisper", "whispered",
   "whispers", "mutter", "muttered", "mutters", "state", "stated",
   "states", "mention", "mentioned", "mentions", "tell", "told", "tells",
   "speak", "spoke", "speaks", "respond", "responded", "responds",
   "remark", "remarked", "remarks", "announce", "announced", "announces",
   "declare", "declared", "declares", "call", "called", "calls",
   "add", "added", "adds", "continue", "continued", "continues"].map String.data

/-- `THOUGHT_VERBS` from the source. -/
def THOUGHT_VERBS : List Text :=
  ["think", "thought", "thinks", "wonder", "wondered", "wonders",
   "ponder", "pondered", "ponders", "consider", "considered", "considers",
   "realize", "realized", "realizes", "figure", "figured", "figures",
   "imagine", "imagined", "imagines", "believe", "believed", "believes",
   "feel", "felt", "feels", "remember", "remembered", "remembers",
   "recall", "recalled", "recalls", "muse", "mused", "muses",
   "reflect", "reflected", "reflects", "reckon", "reckoned", "reckons"].map String.data

/-- `SHOUT_VERBS` from the source. -/
def SHOUT_VERBS : List Text :=
  ["shout", "shouted", "shouts", "yell", "yelled", "yells",
   "scream", "screamed", "screams", "cry", "cried", "cries",
   "holler", "hollered", "hollers", "bellow", "bellowed", "bellows",
   "roar", "roared", "roars", "exclaim", "exclaimed", "exclaims",
   "shriek", "shrieked", "shrieks"].map String.data

/-- An extractor instance with the source verb sets and a given engine. -/
def extractorWith (eng : NlpEngine) : ComicBubbleExtractor :=
  ⟨SPEECH_VERBS, THOUGHT_VERBS, SHOUT_VERBS, eng⟩

/-! ## Quote Classifier -/

/-- The bubble-type decision of `_create_quote_bubble`: the rule chain on
the lower-cased joined context and the quoted text. -/
def classifyQuote (self : ComicBubbleExtractor) (quote_text before after : Text) : Text :=
  let context := lowerText before ++ ' ' :: lowerText after
  if self.shoutVerbs.any (fun v => containsSub context v) then "shout".data
  else if pyIsUpper quote_text || quote_text.count '!' ≥ 2 then "shout".data
  else if quote_text.getLast? = some '!' ∧ (splitWs quote_text).length ≤ 3 then "shout".data
  else if self.thoughtVerbs.any (fun v => containsSub context v) then "thought".data
  else "speech".data

/-- `_extract_character_from_text`: first PERSON entity, else first proper
noun token, else empty. -/
def extractCharacterFromText (self : ComicBubbleExtractor) (t : Text) : Text :=
  match (self.nlp.ents t).find? (fun e => decide (e.2 = "PERSON".data)) with
  | some e => e.1
  | none =>
    match (self.nlp.tokenize t).find? (fun tok => decide (tok.pos_ = "PROPN".data)) with
    | some tok => tok.text
    | none => []

/-- `_create_quote_bubble`: classify the quote from its context and attach
the extracted character.  The bubble text is the quoted content verbatim. -/
def createQuoteBubble (self : ComicBubbleExtractor) (quote_text before after : Text) : TextBubble :=
  ⟨classifyQuote self quote_text before after, quote_text,
    extractCharacterFromText self (before ++ ' ' :: after)⟩

/-! ## Residual (non-quoted) text extraction -/

/-- Lexicographic comparison of `(start, end)` pairs, as used by Python
`sorted(quote_ranges)` on tuples. -/
def pairLe (a b : Nat × Nat) : Bool :=
  decide (a.1 < b.1) || (decide (a.1 = b.1) && decide (a.2 ≤ b.2))

/-- The residual character ranges produced by the `last_end` loop of
`_extract_non_quoted_text` (before stripping): the gap before each range
when `last_end < start`, and the tail after the final `last_end`. -/
def rangeLoop (tLen : Nat) (lastEnd : Nat) : List (Nat × Nat) → List (Nat × Nat)
  | [] => if lastEnd < tLen then [(lastEnd, tLen)] else []
  | (s, e) :: rest => (if lastEnd < s then [(lastEnd, s)] else []) ++ rangeLoop tLen e rest

/-- The `last_end` loop of `_extract_non_quoted_text`: emit the stripped
text of each gap, skipping empty results. -/
def extractLoop (t : Text) (lastEnd : Nat) : List (Nat × Nat) → List Text
  | [] =>
    if lastEnd < t.length then
      (fun seg => if seg = [] then [] else [seg]) (strip (sliceText t lastEnd t.length))
    else []
  | (s, e) :: rest =>
    (if lastEnd < s then
      (fun seg => if seg = [] then [] else [seg]) (strip (sliceText t lastEnd s))
    else []) ++ extractLoop t e rest

/-- `_extract_non_quoted_text`: with no quote ranges the whole text is one
(unstripped) segment, otherwise process the ranges in sorted order. -/
def extractNonQuotedText (t : Text) (ranges : List (Nat × Nat)) : List Text :=
  if ranges = [] then [t] else extractLoop t 0 (stableSortBy pairLe ranges)

/-- The residual ranges of the sorted quote ranges, used to state the
coverage property positionally. -/
def residualRangesOf (t : Text) (ranges : List (Nat × Nat)) : List (Nat × Nat) :=
  rangeLoop t.length 0 (stableSortBy pairLe ranges)

/-! ## Clause Extractor (`_convert_indirect_speech`) -/

/-- Scan tokens left to right; the first token whose lower-cased lemma is
in a verb set becomes the governing verb, testing the sets in the order
shout, thought, speech. -/
def findMainVerb (self : ComicBubbleExtractor) : List Token → Option (Token × Text)
  | [] => none
  | tok :: rest =>
    let l := lowerText tok.lemma_
    if l ∈ self.shoutVerbs then some (tok, "shout".data)
    else if l ∈ self.thoughtVerbs then some (tok, "thought".data)
    else if l ∈ self.speechVerbs then some (tok, "speech".data)
    else findMainVerb self rest

/-- The subject of the governing verb: the first token with dependency
`nsubj` whose head is the verb; empty text if none. -/
def findSubject (toks : List Token) (v : Token) : Text :=
  match toks.find? (fun t => decide (t.dep_ = "nsubj".data) && decide (t.headIdx = v.i)) with
  | some t => t.text
  | none => []

/-- spaCy `token.children`: the tokens whose head is the given token
(excluding the token itself, so a root with a self-loop head is not its
own child), in sentence order. -/
def childrenOf (toks : List Token) (v : Token) : List Token :=
  toks.filter (fun t => decide (t.headIdx = v.i) && decide (¬ t.i = v.i))

/-- Look a token up by index. -/
def headAt (toks : List Token) (n : Nat) : Option Token :=
  toks.find? (fun t => decide (t.i = n))

/-- Does the head chain from `u` reach `root` within `fuel` steps?  A
self-loop (the sentence root) terminates the walk. -/
def reachesRoot (toks : List Token) (root : Token) : Token → Nat → Bool
  | u, 0 => decide (u.i = root.i)
  | u, fuel + 1 =>
    decide (u.i = root.i) ||
      (if u.headIdx = u.i then false
       else match headAt toks u.headIdx with
         | some h => reachesRoot toks root h fuel
         | none => false)

/-- spaCy `token.subtree`: the token and all its descendants by head
links. -/
def subtreeOf (toks : List Token) (root : Token) : List Token :=
  toks.filter (fun u => reachesRoot toks root u toks.length)

/-- Sort tokens by index (`sorted(child.subtree, key=lambda t: t.i)`). -/
def sortByI (toks : List Token) : List Token :=
  stableSortBy (fun a b => decide (a.i ≤ b.i)) toks

/-- Join token texts with single spaces (the Python space join). -/
def joinWithSpace : List Text → Text
  | [] => []
  | [w] => w
  | w :: ws => w ++ ' ' :: joinWithSpace ws

/-- The complementizer words of the leading-word regex
`^\s*(if|that|whether|how|why|when|where)\s+`. -/
def compWords : List Text :=
  ["if", "that", "whether", "how", "why", "when", "where"].map String.data

/-- Try each alternative on the text after the leading whitespace: the word
must match case-insensitively and be followed by at least one whitespace
character; on a match, the word and the whitespace run after it are
removed.  Otherwise the original content is returned unchanged. -/
def stripLeadWordGo (rest orig : Text) : List Text → Text
  | [] => orig
  | w :: ws =>
    match rest.drop w.length with
    | c :: cs =>
      if lowerText (rest.take w.length) = w ∧ isWs c = true then
        List.dropWhile isWs (c :: cs)
      else stripLeadWordGo rest orig ws
    | [] => stripLeadWordGo rest orig ws

/-- The `re.sub` of `_extract_speech_content`: strip one leading
complementizer (with surrounding whitespace) case-insensitively. -/
def stripLeadWord (content : Text) : Text :=
  stripLeadWordGo (content.dropWhile isWs) content compWords

/-- `_extract_speech_content`: the first dependent of the verb with
dependency `ccomp`, `xcomp` or `advcl`; its subtree sorted by index,
joined with spaces, complementizer-stripped, stripped. -/
def extractSpeechContent (toks : List Token) (v : Token) : Option Text :=
  match (childrenOf toks v).find?
      (fun c => decide (c.dep_ = "ccomp".data) || decide (c.dep_ = "xcomp".data) ||
        decide (c.dep_ = "advcl".data)) with
  | none => none
  | some child =>
    some (strip (stripLeadWord (joinWithSpace ((sortByI (subtreeOf toks child)).map Token.text))))

/-! ## Person Rewriter (`_convert_to_first_person`) -/

/-- Contraction `they` + apostrophe + `d`, and friends. -/
def theyD : Text := "they".data ++ apos :: "d".data

def heD : Text := "he".data ++ apos :: "d".data

def sheD : Text := "she".data ++ apos :: "d".data

def theyLl : Text := "they".data ++ apos :: "ll".data

def heLl : Text := "he".data ++ apos :: "ll".data

def sheLl : Text := "she".data ++ apos :: "ll".data

def theyRe : Text := "they".data ++ apos :: "re".data

def heS : Text := "he".data ++ apos :: "s".data

def sheS : Text := "she".data ++ apos :: "s".data

def iD : Text := "I".data ++ apos :: "d".data

def iLl : Text := "I".data ++ apos :: "ll".data

def iM : Text := "I".data ++ apos :: "m".data

/-- Is the last emitted token, lower-cased, `i` or `we`
(checking `result[-1].lower()` against the two words)?  `acc` is reversed. -/
def prevIsIWe (acc : List Text) : Bool :=
  match acc with
  | prev :: _ => decide (lowerText prev = "i".data) || decide (lowerText prev = "we".data)
  | [] => false

/-- One step of the token-by-token rewrite loop: what is appended to
`result` for this token, given the already-emitted tokens (reversed). -/
def rewriteOne (character : Text) (acc : List Text) (tok : Token) : Text :=
  let tl := lowerText tok.text
  if character ≠ [] ∧ tok.text = character then "I".data
  else if tl = "he".data ∨ tl = "she".data then "I".data
  else if tl = "him".data ∨ tl = "her".data then "me".data
  else if tl = "his".data then "my".data
  else if tl = "hers".data then "mine".data
  else if tl = "himself".data ∨ tl = "herself".data then "myself".data
  else if tl = "they".data then "we".data
  else if tl = "them".data then "us".data
  else if tl = "their".data then "our".data
  else if tl = "theirs".data then "ours".data
  else if tl = theyD ∨ tl = heD ∨ tl = sheD then iD
  else if tl = theyLl ∨ tl = heLl ∨ tl = sheLl then iLl
  else if tl = theyRe ∨ tl = heS ∨ tl = sheS then iM
  else if prevIsIWe acc = true ∧ tok.pos_ = "VERB".data ∧ tok.tag_ = "VBZ".data then tok.lemma_
  else tok.text

/-- The rewrite loop, accumulating emitted tokens in reverse. -/
def rewriteAux (character : Text) (acc : List Text) : List Token → List Text
  | [] => acc.reverse
  | tok :: rest => rewriteAux character (rewriteOne character acc tok :: acc) rest

/-- Tokens appended with no preceding space: `. , ! ? ; : )` and the
apostrophe. -/
def punctToks : List Text :=
  [['.'], [','], ['!'], ['?'], [apos], [';'], [':'], [')']]

/-- Opening delimiters after which the next token gets no preceding
space. -/
def openerToks : List Text := [['('], ['"'], [apos]]

/-- The reassembly loop from the second half of `_convert_to_first_person`,
carrying the previous token. -/
def reassembleAux (prevTok : Text) (out : Text) : List Text → Text
  | [] => out
  | w :: ws =>
    let out2 :=
      if w ∈ punctToks then out ++ w
      else if prevTok ∈ openerToks then out ++ w
      else out ++ ' ' :: w
    reassembleAux w out2 ws

/-- Reassemble the emitted tokens: the first token starts the output, then
the spacing rules apply. -/
def reassemble : List Text → Text
  | [] => []
  | w :: ws => reassembleAux w w ws

/-- Capitalize the first character (`output[0].upper() + output[1:]`,
ASCII model). -/
def capFirst : Text → Text
  | [] => []
  | c :: cs => Char.toUpper c :: cs

/-- The final punctuation policy: capitalize, and append a question mark
unless the text already ends in `.`, `!` or `?`. -/
def finishOutput (out : Text) : Text :=
  let capped := capFirst out
  match capped.getLast? with
  | none => capped
  | some l => if l = '.' ∨ l = '!' ∨ l = '?' then capped else capped ++ ['?']

/-- `_convert_to_first_person`: tokenize the clause with the engine, run
the rewrite loop, reassemble, capitalize and punctuate. -/
def convertToFirstPerson (self : ComicBubbleExtractor) (text character : Text) : Text :=
  finishOutput (reassemble (rewriteAux character [] (self.nlp.tokenize text)))

/-- `_convert_indirect_speech`: find the governing verb, subject and
clause content; fail (`None`) when there is no verb, no complement clause,
or empty extracted content. -/
def convertIndirectSpeech (self : ComicBubbleExtractor) (sent : Sentence) : Option TextBubble :=
  match findMainVerb self sent.tokens with
  | none => none
  | some (v, verbType) =>
    let character := findSubject sent.tokens v
    match extractSpeechContent sent.tokens v with
    | none => none
    | some content =>
      if content = [] then none
      else some ⟨verbType, convertToFirstPerson self content character, character⟩

/-! ## Bubble Assembler -/

/-- The per-sentence step shared by `_process_text_segment` and
`_process_pure_narrative`: a converted bubble, or a Scene bubble holding
the stripped sentence text. -/
def processSentenceB (self : ComicBubbleExtractor) (sent : Sentence) : TextBubble :=
  match convertIndirectSpeech self sent with
  | some b => b
  | none => ⟨"scene".data, strip sent.text, []⟩

/-- `_process_text_segment`: sentence-segment the text and process each
non-empty sentence. -/
def processTextSegment (self : ComicBubbleExtractor) (t : Text) : List TextBubble :=
  ((self.nlp.sents t).map
    (fun s => if strip s.text = [] then [] else [processSentenceB self s])).flatten

/-- `_process_pure_narrative`: byte-identical to `_process_text_segment`
in the source (a duplicated loop). -/
def processPureNarrative (self : ComicBubbleExtractor) (t : Text) : List TextBubble :=
  ((self.nlp.sents t).map
    (fun s => if strip s.text = [] then [] else [processSentenceB self s])).flatten

/-- The ordering key of `_sort_bubbles_by_position`: position of the
lower-cased bubble text in the lower-cased paragraph; on failure, the
position of the character name when the character is non-empty, else the
sentinel 999999. -/
def getPosition (t : Text) (b : TextBubble) : Int :=
  let pos := findSub (lowerText t) (lowerText b.text)
  if pos = -1 then
    (if b.character ≠ [] then findSub (lowerText t) (lowerText b.character) else 999999)
  else pos

/-- `_sort_bubbles_by_position`: stable sort by the ordering key. -/
def sortBubblesByPosition (bubbles : List TextBubble) (t : Text) : List TextBubble :=
  stableSortBy (fun a b => decide (getPosition t a ≤ getPosition t b)) bubbles

/-- `process_paragraph`: locate quotes; with none, process the whole
paragraph as pure narrative; otherwise classify each quote, process the
residual segments, and sort all bubbles by original position. -/
def processParagraph (self : ComicBubbleExtractor) (paragraph : Text) : List TextBubble :=
  let quoteInfo := findAllQuotes paragraph
  if quoteInfo = [] then processPureNarrative self paragraph
  else
    let quoteBubbles := quoteInfo.map (fun q => createQuoteBubble self q.content q.before q.after)
    let ranges := quoteInfo.map (fun q => (q.start, q.stop))
    let segBubbles := ((extractNonQuotedText paragraph ranges).map (processTextSegment self)).flatten
    sortBubblesByPosition (quoteBubbles ++ segBubbles) paragraph

/-- `process_paragraph` with the object state threaded explicitly: no
method of the source assigns to the extractor state (the verb sets and the
engine are only read), so the post-call state is the pre-call state. -/
def processParagraphRun (self : ComicBubbleExtractor) (paragraph : Text) :
    List TextBubble × ComicBubbleExtractor :=
  (processParagraph self paragraph, self)

/-! ## Concrete fixtures for witnesses and counterexamples -/

/-- A trivial engine: no sentences, no tokens, no entities. -/
def trivEng : NlpEngine := ⟨fun _ => [], fun _ => [], fun _ => []⟩

/-- The clause of the person-rewrite scenario. -/
def hwsText : Text := "he was safe".data

/-- spaCy tokenisation of the clause `he was safe`. -/
def hwsTokens : List Token :=
  [⟨"he".data, "he".data, "PRON".data, "PRP".data, "nsubj".data, 1, 0⟩,
   ⟨"was".data, "be".data, "AUX".data, "VBD".data, "ROOT".data, 1, 1⟩,
   ⟨"safe".data, "safe".data, "ADJ".data, "JJ".data, "acomp".data, 1, 2⟩]

/-- An engine that tokenizes every clause as `he was safe`. -/
def hwsEng : NlpEngine := ⟨fun _ => [], fun _ => hwsTokens, fun _ => []⟩

-- Person rewrite scenario from the spec.
example : convertToFirstPerson (extractorWith hwsEng) hwsText [] = "I was safe?".data := by decide

-- Rule 1 of the classifier is a substring test: `cry` occurs inside `crystal`.
example : classifyQuote (extractorWith trivEng) "hi".data "crystal".data [] = "shout".data := by
  decide

-- The sort key of an unfound bubble with an unfound non-empty character is -1.
example :
    getPosition "hello world".data ⟨"speech".data, "xyz".data, "Bob".data⟩ = -1 := by decide

example :
    sortBubblesByPosition
      [⟨"speech".data, "hello".data, []⟩, ⟨"speech".data, "xyz".data, "Bob".data⟩]
      "hello world".data =
      [⟨"speech".data, "xyz".data, "Bob".data⟩, ⟨"speech".data, "hello".data, []⟩] := by decide

-- A whitespace-only quote is kept, untrimmed.
example :
    (findAllQuotes ("he said \" \"".data)).map (fun q => q.content) = [[' ']] := by decide

-- Empty paragraph: no quotes, and with no sentences the result is empty.
example : processParagraph (extractorWith trivEng) [] = [] := by decide

/-- Spec-side definition for comparison: a regex word character (letter,
digit or underscore), for the whole-word reading of classifier rule 1. -/
def isWordChar (c : Char) : Bool := c.isAlphanum || c = '_'

/-- Auxiliary for `wholeWordsOf`, accumulating the current word reversed. -/
def wholeWordsAux : Text → Text → List Text
  | acc, [] => if acc = [] then [] else [acc.reverse]
  | acc, c :: rest =>
    if isWordChar c then wholeWordsAux (c :: acc) rest
    else if acc = [] then wholeWordsAux [] rest else acc.reverse :: wholeWordsAux [] rest

/-- Spec-side definition for comparison: the whole words of a text, i.e.
its maximal runs of word characters.  A lemma occurs as a whole word
exactly when it is one of these.  This definition follows the wording of
the spec, not the source (the source has no whole-word logic); it exists
only to compare the two readings of classifier rule 1. -/
def wholeWordsOf (t : Text) : List Text := wholeWordsAux [] t

/-- A paragraph with one double-quoted span, `he said "hi"`. -/
def quoteT : Text := "he said \"hi\"".data

/-- The single quote located in `quoteT`. -/
def q6 : QuoteInfo := ⟨"hi".data, 8, 12, "he said ".data, []⟩

/-- A paragraph whose quoted content is a single space. -/
def wsQuoteT : Text := "he said \" \"".data

/-- The whitespace-only quote located in `wsQuoteT`. -/
def qWs : QuoteInfo := ⟨[' '], 8, 11, "he said ".data, []⟩

/-- A paragraph on which the double-quote span and the single-quote span
overlap without sharing a start offset. -/
def overlapT : Text := "\"a ".data ++ apos :: "b".data ++ apos :: " c\"".data

/-- The paragraph of the sort counterexample. -/
def helloT : Text := "hello world".data

/-- A bubble whose text occurs in `helloT` at position 0. -/
def bubbleHello : TextBubble := ⟨"speech".data, "hello".data, []⟩

/-- A bubble whose text and (non-empty) character both fail to occur in
`helloT`. -/
def bubbleLost : TextBubble := ⟨"speech".data, "xyz".data, "Bob".data⟩

/-- A bubble whose text fails to occur in `helloT` and whose character is
empty. -/
def bubbleLostNoChar : TextBubble := ⟨"speech".data, "xyz".data, []⟩

/-- Tokens of the sentence `The door creaked open.` (no verb-set lemma). -/
def doorTokens : List Token :=
  [⟨"The".data, "the".data, "DET".data, "DT".data, "det".data, 1, 0⟩,
   ⟨"door".data, "door".data, "NOUN".data, "NN".data, "nsubj".data, 2, 1⟩,
   ⟨"creaked".data, "creak".data, "VERB".data, "VBD".data, "ROOT".data, 2, 2⟩,
   ⟨"open".data, "open".data, "ADJ".data, "JJ".data, "acomp".data, 2, 3⟩,
   ⟨".".data, ".".data, "PUNCT".data, ".".data, "punct".data, 2, 4⟩]

/-- The sentence `The door creaked open.`. -/
def doorSent : Sentence := ⟨"The door creaked open.".data, doorTokens⟩

/-- The first token of `Sarah wondered if he was safe.`. -/
def sarahTok : Token := ⟨"Sarah".data, "Sarah".data, "PROPN".data, "NNP".data, "nsubj".data, 1, 0⟩

/-- The governing verb token of `Sarah wondered if he was safe.`. -/
def wonderedTok : Token := ⟨"wondered".data, "wonder".data, "VERB".data, "VBD".data, "ROOT".data, 1, 1⟩

/-- The remaining tokens of `Sarah wondered if he was safe.`. -/
def sarahRest : List Token :=
  [⟨"if".data, "if".data, "SCONJ".data, "IN".data, "mark".data, 4, 2⟩,
   ⟨"he".data, "he".data, "PRON".data, "PRP".data, "nsubj".data, 4, 3⟩,
   ⟨"was".data, "be".data, "AUX".data, "VBD".data, "ccomp".data, 1, 4⟩,
   ⟨"safe".data, "safe".data, "ADJ".data, "JJ".data, "acomp".data, 4, 5⟩,
   ⟨".".data, ".".data, "PUNCT".data, ".".data, "punct".data, 1, 6⟩]

/-- The sentence `Sarah wondered if he was safe.`. -/
def sarahSent : Sentence :=
  ⟨"Sarah wondered if he was safe.".data, sarahTok :: wonderedTok :: sarahRest⟩

/-! ## Supporting lemmas: stable sort and deduplication -/

theorem mem_insertLe (le : α → α → Bool) (x a : α) (l : List α) :
    a ∈ insertLe le x l ↔ a = x ∨ a ∈ l := by
  induction l with
  | nil => simp [insertLe]
  | cons y ys ih =>
    by_cases h : le x y = true
    · simp [insertLe, h]
    · simp only [insertLe, if_neg h, List.mem_cons, ih]
      tauto

theorem mem_stableSortBy (le : α → α → Bool) (a : α) (l : List α) :
    a ∈ stableSortBy le l ↔ a ∈ l := by
  induction l with
  | nil => simp [stableSortBy]
  | cons x xs ih => simp [stableSortBy, mem_insertLe, ih]

theorem find_eq_head_filter (p : α → Bool) (l : List α) :
    l.find? p = (l.filter p).head? := by
  induction l with
  | nil => simp
  | cons x xs ih =>
    by_cases h : p x = true
    · simp [List.find?, List.filter, h]
    · simp only [List.find?, List.filter, h]
      exact ih

theorem pairwise_start_insertLe (x : QuoteInfo) (l : List QuoteInfo)
    (h : l.Pairwise (fun a b => a.start ≤ b.start)) :
    (insertLe startLe x l).Pairwise (fun a b => a.start ≤ b.start) := by
  induction l with
  | nil => simp [insertLe]
  | cons y ys ih =>
    rcases List.pairwise_cons.mp h with ⟨hy, hys⟩
    by_cases hle : startLe x y = true
    · have hxy : x.start ≤ y.start := by simpa [startLe] using hle
      simp only [insertLe, if_pos hle]
      refine List.pairwise_cons.mpr ⟨?_, h⟩
      intro b hb
      rcases List.mem_cons.mp hb with rfl | hb
      · exact hxy
      · exact le_trans hxy (hy b hb)
    · have hyx : y.start ≤ x.start := by
        simp only [startLe, decide_eq_true_eq] at hle
        omega
      simp only [insertLe, if_neg hle]
      refine List.pairwise_cons.mpr ⟨?_, ih hys⟩
      intro b hb
      rcases (mem_insertLe startLe x b ys).mp hb with rfl | hb
      · exact hyx
      · exact hy b hb

theorem pairwise_start_stableSortBy (l : List QuoteInfo) :
    (stableSortBy startLe l).Pairwise (fun a b => a.start ≤ b.start) := by
  induction l with
  | nil => simp [stableSortBy]
  | cons x xs ih => exact pairwise_start_insertLe x _ ih

theorem filter_start_insertLe (x : QuoteInfo) (l : List QuoteInfo) (s : Nat) :
    (insertLe startLe x l).filter (fun q => decide (q.start = s)) =
      if x.start = s then x :: l.filter (fun q => decide (q.start = s))
      else l.filter (fun q => decide (q.start = s)) := by
  induction l with
  | nil =>
    by_cases h : x.start = s <;> simp [insertLe, List.filter, h]
  | cons y ys ih =>
    by_cases hle : startLe x y = true
    · by_cases h : x.start = s <;> simp [insertLe, hle, List.filter, h]
    · have hyx : y.start < x.start := by
        simp only [startLe, decide_eq_true_eq] at hle
        omega
      by_cases h : x.start = s
      · have hy : ¬ y.start = s := by omega
        simp [insertLe, hle, List.filter, h, hy, ih]
      · by_cases hy : y.start = s <;> simp [insertLe, hle, List.filter, h, hy, ih]

theorem filter_start_stableSortBy (l : List QuoteInfo) (s : Nat) :
    (stableSortBy startLe l).filter (fun q => decide (q.start = s)) =
      l.filter (fun q => decide (q.start = s)) := by
  induction l with
  | nil => simp [stableSortBy]
  | cons x xs ih =>
    by_cases h : x.start = s <;>
      simp [stableSortBy, filter_start_insertLe, h, List.filter, ih]

theorem dedupByStart_sublist (seen : List Nat) (l : List QuoteInfo) :
    (dedupByStart seen l).Sublist l := by
  induction l generalizing seen with
  | nil => simp [dedupByStart]
  | cons q qs ih =>
    by_cases h : q.start ∈ seen
    · simp only [dedupByStart, if_pos h]
      exact (ih seen).cons q
    · simp only [dedupByStart, if_neg h]
      exact (ih (q.start :: seen)).cons₂ q

theorem mem_dedupByStart_first (seen : List Nat) (l : List QuoteInfo) (q : QuoteInfo)
    (hq : q ∈ dedupByStart seen l) :
    q.start ∉ seen ∧ l.find? (fun c => decide (c.start = q.start)) = some q := by
  induction l generalizing seen with
  | nil => simp [dedupByStart] at hq
  | cons x xs ih =>
    by_cases h : x.start ∈ seen
    · simp only [dedupByStart, if_pos h] at hq
      rcases ih seen hq with ⟨hseen, hfind⟩
      have hne : ¬ x.start = q.start := fun he => hseen (he ▸ h)
      refine ⟨hseen, ?_⟩
      rw [List.find?_cons_of_neg _ (by simpa using hne)]
      exact hfind
    · simp only [dedupByStart, if_neg h] at hq
      rcases List.mem_cons.mp hq with rfl | hq
      · refine ⟨h, ?_⟩
        rw [List.find?_cons_of_pos _ (by simp)]
      · rcases ih (x.start :: seen) hq with ⟨hseen, hfind⟩
        have hne : ¬ x.start = q.start := by
          intro he
          exact hseen (by simp [he])
        refine ⟨fun hs => hseen (List.mem_cons_of_mem _ hs), ?_⟩
        rw [List.find?_cons_of_neg _ (by simpa using hne)]
        exact hfind

theorem dedupByStart_pairwise_ne (seen : List Nat) (l : List QuoteInfo) :
    (dedupByStart seen l).Pairwise (fun a b => a.start ≠ b.start) := by
  induction l generalizing seen with
  | nil => simp [dedupByStart]
  | cons q qs ih =>
    by_cases h : q.start ∈ seen
    · simpa [dedupByStart, h] using ih seen
    · simp only [dedupByStart, if_neg h]
      refine List.pairwise_cons.mpr ⟨?_, ih (q.start :: seen)⟩
      intro b hb
      have := (mem_dedupByStart_first _ _ b hb).1
      intro he
      exact this (by simp [he])

theorem dedupByStart_complete (seen : List Nat) (l : List QuoteInfo) (c : QuoteInfo)
    (hc : c ∈ l) :
    c.start ∈ seen ∨ ∃ q ∈ dedupByStart seen l, q.start = c.start := by
  induction l generalizing seen with
  | nil => simp at hc
  | cons x xs ih =>
    by_cases h : x.start ∈ seen
    · rcases List.mem_cons.mp hc with rfl | hc
      · exact Or.inl h
      · rcases ih seen hc with hs | ⟨q, hq, he⟩
        · exact Or.inl hs
        · exact Or.inr ⟨q, by simp [dedupByStart, h, hq], he⟩
    · rcases List.mem_cons.mp hc with rfl | hc
      · exact Or.inr ⟨c, by simp [dedupByStart, h], rfl⟩
      · rcases ih (x.start :: seen) hc with hs | ⟨q, hq, he⟩
        · rcases List.mem_cons.mp hs with he | hs
          · exact Or.inr ⟨x, by simp [dedupByStart, h], he.symm⟩
          · exact Or.inl hs
        · exact Or.inr ⟨q, by simp [dedupByStart, h, hq], he⟩

/-! ## Supporting lemmas: find, characters, scan contents -/

theorem findSubAux_bounds (needle t : Text) (i : Nat) :
    findSubAux needle t i = -1 ∨
      ((i : Int) ≤ findSubAux needle t i ∧ findSubAux needle t i ≤ i + t.length) := by
  induction t generalizing i with
  | nil =>
    by_cases h : startsIn needle [] = true <;> simp [findSubAux, h]
  | cons c rest ih =>
    by_cases h : startsIn needle (c :: rest) = true
    · right
      simp only [findSubAux, if_pos h, List.length_cons]
      constructor
      · exact le_refl _
      · omega
    · simp only [findSubAux, if_neg h, List.length_cons]
      rcases ih (i + 1) with h1 | ⟨h1, h2⟩
      · exact Or.inl h1
      · right
        push_cast at h1 h2 ⊢
        omega

theorem findSub_found_bounds (hay needle : Text) (h : ¬ findSub hay needle = -1) :
    0 ≤ findSub hay needle ∧ findSub hay needle ≤ (hay.length : Int) := by
  rcases findSubAux_bounds needle hay 0 with h1 | ⟨h1, h2⟩
  · exact absurd h1 h
  · exact ⟨h1, by simpa using h2⟩

theorem isLower_toUpper (c : Char) : (Char.toUpper c).isLower = false := by
  unfold Char.toUpper
  by_cases h : c.toNat ≥ 97 ∧ c.toNat ≤ 122
  · rw [if_pos h]
    obtain ⟨h1, h2⟩ := h
    have hb : 65 ≤ c.toNat - 32 ∧ c.toNat - 32 ≤ 90 := by omega
    generalize hm : c.toNat - 32 = m at hb
    obtain ⟨hb1, hb2⟩ := hb
    interval_cases m <;> decide
  · rw [if_neg h]
    simp only [Char.isLower, Bool.and_eq_false_iff, decide_eq_false_iff_not]
    simp only [UInt32.le_def, BitVec.le_def] at h ⊢
    have e97 : (UInt32.toBitVec 97).toNat = 97 := rfl
    have e122 : (UInt32.toBitVec 122).toNat = 122 := rfl
    have ev : c.val.toBitVec.toNat = c.toNat := rfl
    rw [e97, e122, ev] at *
    omega

theorem splitCloseAux_content_ne (k : Char) (s : Text) :
    ∀ acc content rest, acc ≠ [] → splitCloseAux k acc s = some (content, rest) →
      content ≠ [] := by
  induction s with
  | nil => intro acc content rest _ h; simp [splitCloseAux] at h
  | cons x xs ih =>
    intro acc content rest hacc h
    by_cases hx : x = k
    · simp only [splitCloseAux, if_pos hx, Option.some.injEq, Prod.mk.injEq] at h
      rcases h with ⟨h1, _⟩
      subst h1
      simpa using hacc
    · by_cases hn : x = '\n'
      · rw [splitCloseAux, if_neg hx, if_pos hn] at h
        exact absurd h (by simp)
      · simp only [splitCloseAux, if_neg hx, if_neg hn] at h
        exact ih (x :: acc) content rest (by simp) h

theorem splitClose_content_ne (k : Char) (s content rest : Text)
    (h : splitClose k s = some (content, rest)) : content ≠ [] := by
  cases s with
  | nil => simp [splitClose] at h
  | cons x xs =>
    by_cases hn : x = '\n'
    · simp [splitClose, hn] at h
    · simp only [splitClose, if_neg hn] at h
      exact splitCloseAux_content_ne k xs [x] content rest (by simp) h

theorem scanGenAux_content_ne (close : Char → Option Char) (t : Text) :
    ∀ skip p m, m ∈ scanGenAux close skip p t → m.content ≠ [] := by
  induction t with
  | nil => intro skip p m h; simp [scanGenAux] at h
  | cons c rest ih =>
    intro skip p m h
    cases skip with
    | succ n =>
      exact ih n (p + 1) m (by simpa [scanGenAux] using h)
    | zero =>
      cases hc : close c with
      | none =>
        simp only [scanGenAux, hc] at h
        exact ih 0 (p + 1) m h
      | some k =>
        cases hs : splitClose k rest with
        | none =>
          simp only [scanGenAux, hc, hs] at h
          exact ih 0 (p + 1) m h
        | some pr =>
          rcases pr with ⟨content, after⟩
          simp only [scanGenAux, hc, hs] at h
          rcases List.mem_cons.mp h with rfl | h
          · exact splitClose_content_ne k rest content after hs
          · exact ih _ (p + 1) m h

theorem allQuoteCandidates_content_ne (t : Text) (q : QuoteInfo)
    (hq : q ∈ allQuoteCandidates t) : q.content ≠ [] := by
  rcases List.mem_map.mp hq with ⟨m, hm, rfl⟩
  simp only [List.mem_append] at hm
  rcases hm with (((h | h) | h) | h) | h
  · exact scanGenAux_content_ne _ t _ _ m h
  · exact scanGenAux_content_ne _ t _ _ m h
  · exact scanGenAux_content_ne _ t _ _ m h
  · exact scanGenAux_content_ne _ t _ _ m h
  · exact scanGenAux_content_ne _ t _ _ m h

theorem findAllQuotes_sub_candidates (t : Text) (q : QuoteInfo)
    (hq : q ∈ findAllQuotes t) : q ∈ allQuoteCandidates t := by
  have h1 : q ∈ stableSortBy startLe (allQuoteCandidates t) :=
    (dedupByStart_sublist [] _).mem hq
  exact (mem_stableSortBy _ _ _).mp h1

/-! ## Claim theorems -/

/-- Claim C8: for an empty input paragraph, `process_paragraph` returns an
empty bubble sequence rather than raising an error: no quote can be located
in empty text, and an engine that segments empty text into no sentences
yields no bubbles. -/
theorem c8_empty_paragraph (eng : NlpEngine) (h : eng.sents [] = []) :
    processParagraph (extractorWith eng) [] = [] := by
  have hq : findAllQuotes [] = [] := rfl
  simp only [processParagraph, hq, if_pos rfl, processPureNarrative, extractorWith]
  rw [h]
  rfl

/-- Witness for C8 at a concrete engine. -/
theorem c8_empty_paragraph_witness : processParagraph (extractorWith trivEng) [] = [] :=
  c8_empty_paragraph trivEng rfl

/-- Claim C9: the extractor is deterministic; with the object state
threaded explicitly, a second run of `process_paragraph` on the same
paragraph produces the identical bubble sequence, and the state after a
call equals the state before it (the source methods never assign to the
extractor state, whose only contents are the immutable verb sets and the
engine). -/
theorem c9_deterministic (self : ComicBubbleExtractor) (p : Text) :
    (processParagraphRun ((processParagraphRun self p).2) p).1 = (processParagraphRun self p).1 ∧
    (processParagraphRun ((processParagraphRun self p).2) p).2 = self :=
  ⟨rfl, rfl⟩

/-- Claim C10: `_process_pure_narrative` and `_process_text_segment` are
extensionally equal (their bodies are duplicated in the source), so the
no-quotes early return of `process_paragraph` is the same as processing
the whole paragraph as one residual segment. -/
theorem c10_residual_paths :
    (∀ (self : ComicBubbleExtractor) (t : Text),
      processPureNarrative self t = processTextSegment self t) ∧
    (∀ (self : ComicBubbleExtractor) (p : Text), findAllQuotes p = [] →
      processParagraph self p = processTextSegment self p) := by
  constructor
  · intro self t
    rfl
  · intro self p h
    simp only [processParagraph, h, if_pos rfl]
    rfl

/-- Witness for C10 at a concrete quote-free paragraph. -/
theorem c10_residual_paths_witness :
    processParagraph (extractorWith trivEng) "hi".data =
      processTextSegment (extractorWith trivEng) "hi".data :=
  c10_residual_paths.2 (extractorWith trivEng) "hi".data (by decide)

/-- Claim C1, counterexample: a bubble whose text is not found and whose
character is non-empty but also not found receives the ordering key `-1`,
which sorts (strictly) before the key of a bubble whose text is found, so
the lost bubble sorts first, not last. -/
theorem c1_sentinel_counterexample :
    getPosition helloT bubbleLost = -1 ∧
    getPosition helloT bubbleHello = 0 ∧
    sortBubblesByPosition [bubbleHello, bubbleLost] helloT = [bubbleLost, bubbleHello] := by
  decide

/-- Claim C1, amended: when the bubble text is not found, the sentinel
999999 is used only when the character is empty, and then (for paragraphs
shorter than 999999 characters) the bubble sorts after every bubble whose
text is found; when the character is non-empty the key is the find result
for the character, which is `-1` (sorting before every real position) when
the character is not found either. -/
theorem c1_sentinel_amended (t : Text) (b : TextBubble)
    (h : findSub (lowerText t) (lowerText b.text) = -1) :
    (b.character = [] → getPosition t b = 999999) ∧
    (b.character ≠ [] →
      getPosition t b = findSub (lowerText t) (lowerText b.character)) ∧
    (b.character = [] → (t.length : Int) < 999999 →
      ∀ b2 : TextBubble, ¬ findSub (lowerText t) (lowerText b2.text) = -1 →
        getPosition t b2 < getPosition t b) := by
  refine ⟨?_, ?_, ?_⟩
  · intro hc
    simp [getPosition, h, hc]
  · intro hc
    simp [getPosition, h, hc]
  · intro hc hlen b2 h2
    have hb : getPosition t b = 999999 := by simp [getPosition, h, hc]
    have hb2 : getPosition t b2 = findSub (lowerText t) (lowerText b2.text) := by
      simp [getPosition, h2]
    rcases findSub_found_bounds _ _ h2 with ⟨_, hle⟩
    have hlt : (lowerText t).length = t.length := by simp [lowerText]
    rw [hb, hb2]
    rw [hlt] at hle
    omega

/-- Witness for the amended C1 at concrete bubbles. -/
theorem c1_sentinel_amended_witness :
    getPosition helloT bubbleLostNoChar = 999999 ∧
    getPosition helloT bubbleHello < getPosition helloT bubbleLostNoChar := by
  have h := c1_sentinel_amended helloT bubbleLostNoChar (by decide)
  exact ⟨h.1 (by decide), h.2.2 (by decide) (by decide) bubbleHello (by decide)⟩

/-- Claim C2, counterexample: a quoted span whose content is a single
space survives the Quote Locator (whitespace-only content is not
discarded), and the resulting bubble text is that untrimmed space, which
differs from its trim (the empty string). -/
theorem c2_quote_text_counterexample :
    findAllQuotes wsQuoteT = [qWs] ∧
    strip qWs.content = [] ∧
    (createQuoteBubble (extractorWith trivEng) qWs.content qWs.before qWs.after).text = [' '] ∧
    ¬ (createQuoteBubble (extractorWith trivEng) qWs.content qWs.before qWs.after).text =
        strip qWs.content := by
  decide

/-- Claim C2, amended: every located quote has non-empty content (the
patterns require at least one content character), and the bubble produced
from it carries the quoted content verbatim — untrimmed, and possibly
consisting only of whitespace. -/
theorem c2_quote_text_amended (self : ComicBubbleExtractor) (t : Text) :
    ∀ q ∈ findAllQuotes t,
      q.content ≠ [] ∧
      (createQuoteBubble self q.content q.before q.after).text = q.content := by
  intro q hq
  exact ⟨allQuoteCandidates_content_ne t q (findAllQuotes_sub_candidates t q hq), rfl⟩

/-- Witness for the amended C2 at the concrete whitespace quote. -/
theorem c2_quote_text_amended_witness :
    qWs.content ≠ [] ∧
    (createQuoteBubble (extractorWith trivEng) qWs.content qWs.before qWs.after).text =
      qWs.content :=
  c2_quote_text_amended (extractorWith trivEng) wsQuoteT qWs (by decide)

/-- Claim C3, counterexample: with context `crystal`, no Shout-set lemma
occurs as a whole word, and none of the punctuation rules 2 and 3 applies
to the quote `hi`; yet the classifier returns Shout, because `cry` occurs
as a substring of `crystal`. -/
theorem c3_shout_rule_counterexample :
    classifyQuote (extractorWith trivEng) "hi".data "crystal".data [] = "shout".data ∧
    SHOUT_VERBS.all
      (fun v =>
        decide (¬ v ∈ wholeWordsOf (lowerText "crystal".data ++ ' ' :: lowerText ([] : Text)))) =
      true ∧
    pyIsUpper "hi".data = false ∧
    "hi".data.count '!' = 0 ∧
    ¬ "hi".data.getLast? = some '!' := by
  decide

/-- Claim C3, amended: rule 1 fires exactly when some Shout-set lemma
occurs as a substring (not necessarily a whole word) of the lower-cased
joined context; in particular a Shout result implies a substring
occurrence or one of the punctuation rules 2 and 3. -/
theorem c3_shout_rule_amended (self : ComicBubbleExtractor) (qt b a : Text) :
    ((∃ v ∈ self.shoutVerbs, containsSub (lowerText b ++ ' ' :: lowerText a) v = true) →
      classifyQuote self qt b a = "shout".data) ∧
    (classifyQuote self qt b a = "shout".data →
      (∃ v ∈ self.shoutVerbs, containsSub (lowerText b ++ ' ' :: lowerText a) v = true) ∨
      pyIsUpper qt = true ∨ qt.count '!' ≥ 2 ∨
      (qt.getLast? = some '!' ∧ (splitWs qt).length ≤ 3)) := by
  constructor
  · intro hex
    have hany :
        self.shoutVerbs.any (fun v => containsSub (lowerText b ++ ' ' :: lowerText a) v) = true :=
      List.any_eq_true.mpr hex
    simp [classifyQuote, hany]
  · intro hcl
    by_cases h1 :
        self.shoutVerbs.any (fun v => containsSub (lowerText b ++ ' ' :: lowerText a) v) = true
    · exact Or.inl (List.any_eq_true.mp h1)
    · right
      by_cases h2 : (pyIsUpper qt || decide (qt.count '!' ≥ 2)) = true
      · have h2p : pyIsUpper qt = true ∨ qt.count '!' ≥ 2 := by simpa using h2
        rcases h2p with hu | hc
        · exact Or.inl hu
        · exact Or.inr (Or.inl hc)
      · by_cases h3 : qt.getLast? = some '!' ∧ (splitWs qt).length ≤ 3
        · exact Or.inr (Or.inr h3)
        · exfalso
          by_cases h4 :
              self.thoughtVerbs.any
                (fun v => containsSub (lowerText b ++ ' ' :: lowerText a) v) = true
          · simp [classifyQuote, h1, h2, h3, h4] at hcl
          · simp [classifyQuote, h1, h2, h3, h4] at hcl

/-- Witness for the amended C3 at the `crystal` context. -/
theorem c3_shout_rule_amended_witness :
    classifyQuote (extractorWith trivEng) "hi".data "crystal".data [] = "shout".data :=
  (c3_shout_rule_amended (extractorWith trivEng) "hi".data "crystal".data []).1
    ⟨"cry".data, by decide, by decide⟩

theorem rangeLoop_covers (tLen : Nat) :
    ∀ (R : List (Nat × Nat)) (lastEnd i : Nat), lastEnd ≤ i → i < tLen →
      (∃ r ∈ R, r.1 ≤ i ∧ i < r.2) ∨
      (∃ g ∈ rangeLoop tLen lastEnd R, g.1 ≤ i ∧ i < g.2) := by
  intro R
  induction R with
  | nil =>
    intro lastEnd i hle hi
    right
    refine ⟨(lastEnd, tLen), ?_, hle, hi⟩
    simp [rangeLoop, Nat.lt_of_le_of_lt hle hi]
  | cons r rest ih =>
    rcases r with ⟨s, e⟩
    intro lastEnd i hle hi
    by_cases h1 : i < s
    · right
      refine ⟨(lastEnd, s), ?_, hle, h1⟩
      have hls : lastEnd < s := Nat.lt_of_le_of_lt hle h1
      simp [rangeLoop, hls]
    · by_cases h2 : i < e
      · exact Or.inl ⟨(s, e), by simp, by omega, h2⟩
      · rcases ih e i (by omega) hi with ⟨r2, hr2, hb⟩ | ⟨g, hg, hb⟩
        · exact Or.inl ⟨r2, List.mem_cons_of_mem _ hr2, hb⟩
        · right
          refine ⟨g, ?_, hb⟩
          simp only [rangeLoop, List.mem_append]
          exact Or.inr hg

theorem extractLoop_eq_rangeLoop (t : Text) :
    ∀ (R : List (Nat × Nat)) (lastEnd : Nat),
      extractLoop t lastEnd R =
        ((rangeLoop t.length lastEnd R).map (fun g => strip (sliceText t g.1 g.2))).filter
          (fun s => decide (¬ s = [])) := by
  intro R
  induction R with
  | nil =>
    intro lastEnd
    by_cases h : lastEnd < t.length
    · by_cases he : strip (sliceText t lastEnd t.length) = [] <;>
        simp [extractLoop, rangeLoop, h, he]
    · simp [extractLoop, rangeLoop, h]
  | cons r rest ih =>
    rcases r with ⟨s, e⟩
    intro lastEnd
    by_cases h : lastEnd < s
    · by_cases he : strip (sliceText t lastEnd s) = [] <;>
        simp [extractLoop, rangeLoop, h, he, ih]
    · simp [extractLoop, rangeLoop, h, ih]

/-- Claim C4, counterexample: on a paragraph where a single-quoted span
is nested inside a double-quoted span (`overlapT`), the locator
returns the overlapping spans `[0, 9)` and `[3, 6)` (different starts, so
deduplication keeps both), and character position 4 lies inside two
QuoteSpan ranges — it is not covered exactly once. -/
theorem c4_coverage_counterexample :
    (findAllQuotes overlapT).map (fun q => (q.start, q.stop)) = [(0, 9), (3, 6)] ∧
    (findAllQuotes overlapT).countP (fun q => decide (q.start ≤ 4) && decide (4 < q.stop)) =
      2 := by
  decide

/-- Claim C4, amended: every character position of the paragraph is
covered by at least one QuoteSpan range or at least one residual-segment
range — no character is dropped — but overlapping spans (which the
deduplication by start offset does not prevent) can cover a position more
than once; characters discarded as whitespace when segments are stripped
disappear only at the segment-text level, where the residual segment texts
are exactly the stripped non-empty gap slices. -/
theorem c4_coverage_amended (t : Text) :
    (∀ i, i < t.length →
      (∃ q ∈ findAllQuotes t, q.start ≤ i ∧ i < q.stop) ∨
      (∃ g ∈ residualRangesOf t ((findAllQuotes t).map (fun q => (q.start, q.stop))),
        g.1 ≤ i ∧ i < g.2)) ∧
    (∀ R : List (Nat × Nat), ¬ R = [] →
      extractNonQuotedText t R =
        ((residualRangesOf t R).map (fun g => strip (sliceText t g.1 g.2))).filter
          (fun s => decide (¬ s = []))) := by
  constructor
  · intro i hi
    rcases rangeLoop_covers t.length
        (stableSortBy pairLe ((findAllQuotes t).map (fun q => (q.start, q.stop)))) 0 i
        (Nat.zero_le i) hi with ⟨r, hr, hb⟩ | ⟨g, hg, hb⟩
    · left
      have hr2 : r ∈ (findAllQuotes t).map (fun q => (q.start, q.stop)) :=
        (mem_stableSortBy _ _ _).mp hr
      rcases List.mem_map.mp hr2 with ⟨q, hq, rfl⟩
      exact ⟨q, hq, hb⟩
    · right
      exact ⟨g, hg, hb⟩
  · intro R hR
    simp only [extractNonQuotedText, if_neg hR, residualRangesOf]
    exact extractLoop_eq_rangeLoop t (stableSortBy pairLe R) 0

/-- Witness for the amended C4 at a concrete paragraph and position. -/
theorem c4_coverage_amended_witness :
    ((∃ q ∈ findAllQuotes quoteT, q.start ≤ 0 ∧ 0 < q.stop) ∨
      (∃ g ∈ residualRangesOf quoteT ((findAllQuotes quoteT).map (fun q => (q.start, q.stop))),
        g.1 ≤ 0 ∧ 0 < g.2)) ∧
    extractNonQuotedText quoteT [(8, 12)] =
      ((residualRangesOf quoteT [(8, 12)]).map
        (fun g => strip (sliceText quoteT g.1 g.2))).filter (fun s => decide (¬ s = [])) :=
  ⟨(c4_coverage_amended quoteT).1 0 (by decide),
   (c4_coverage_amended quoteT).2 [(8, 12)] (by decide)⟩

theorem findMainVerb_head (self : ComicBubbleExtractor) (tk : Token) (post : List Token)
    (hin : lowerText tk.lemma_ ∈ self.shoutVerbs ∨ lowerText tk.lemma_ ∈ self.thoughtVerbs ∨
      lowerText tk.lemma_ ∈ self.speechVerbs) :
    findMainVerb self (tk :: post) =
      some (tk,
        if lowerText tk.lemma_ ∈ self.shoutVerbs then "shout".data
        else if lowerText tk.lemma_ ∈ self.thoughtVerbs then "thought".data
        else "speech".data) := by
  by_cases h1 : lowerText tk.lemma_ ∈ self.shoutVerbs
  · simp [findMainVerb, h1]
  · by_cases h2 : lowerText tk.lemma_ ∈ self.thoughtVerbs
    · simp [findMainVerb, h1, h2]
    · have h3 : lowerText tk.lemma_ ∈ self.speechVerbs := by tauto
      simp [findMainVerb, h1, h2, h3]

theorem findMainVerb_append (self : ComicBubbleExtractor) (pre : List Token) (tk : Token)
    (post : List Token)
    (hpre : ∀ u ∈ pre, ¬ lowerText u.lemma_ ∈ self.shoutVerbs ∧
      ¬ lowerText u.lemma_ ∈ self.thoughtVerbs ∧ ¬ lowerText u.lemma_ ∈ self.speechVerbs) :
    findMainVerb self (pre ++ tk :: post) = findMainVerb self (tk :: post) := by
  induction pre with
  | nil => rfl
  | cons u us ih =>
    rcases hpre u (by simp) with ⟨h1, h2, h3⟩
    simp only [List.cons_append, findMainVerb, h1, h2, h3, if_neg]
    exact ih (fun v hv => hpre v (List.mem_cons_of_mem _ hv))

theorem findMainVerb_none (self : ComicBubbleExtractor) (toks : List Token)
    (h : ∀ u ∈ toks, ¬ lowerText u.lemma_ ∈ self.shoutVerbs ∧
      ¬ lowerText u.lemma_ ∈ self.thoughtVerbs ∧ ¬ lowerText u.lemma_ ∈ self.speechVerbs) :
    findMainVerb self toks = none := by
  induction toks with
  | nil => rfl
  | cons u us ih =>
    rcases h u (by simp) with ⟨h1, h2, h3⟩
    simp only [findMainVerb, h1, h2, h3, if_neg]
    exact ih (fun v hv => h v (List.mem_cons_of_mem _ hv))

/-- Claim C5: the governing verb is the leftmost token whose lemma lies in
some verb set, with the type determined by testing that token in the order
Shout, Thought, Speech; when no token matches any set the conversion fails,
and a failed conversion degrades the sentence to a Scene bubble holding the
full trimmed sentence text. -/
theorem c5_governing_verb (self : ComicBubbleExtractor) (sent : Sentence) :
    (∀ pre tk post, sent.tokens = pre ++ tk :: post →
      (∀ u ∈ pre, ¬ lowerText u.lemma_ ∈ self.shoutVerbs ∧
        ¬ lowerText u.lemma_ ∈ self.thoughtVerbs ∧ ¬ lowerText u.lemma_ ∈ self.speechVerbs) →
      (lowerText tk.lemma_ ∈ self.shoutVerbs ∨ lowerText tk.lemma_ ∈ self.thoughtVerbs ∨
        lowerText tk.lemma_ ∈ self.speechVerbs) →
      findMainVerb self sent.tokens =
        some (tk,
          if lowerText tk.lemma_ ∈ self.shoutVerbs then "shout".data
          else if lowerText tk.lemma_ ∈ self.thoughtVerbs then "thought".data
          else "speech".data)) ∧
    ((∀ u ∈ sent.tokens, ¬ lowerText u.lemma_ ∈ self.shoutVerbs ∧
        ¬ lowerText u.lemma_ ∈ self.thoughtVerbs ∧ ¬ lowerText u.lemma_ ∈ self.speechVerbs) →
      convertIndirectSpeech self sent = none) ∧
    (convertIndirectSpeech self sent = none →
      processSentenceB self sent = ⟨"scene".data, strip sent.text, []⟩) := by
  refine ⟨?_, ?_, ?_⟩
  · intro pre tk post heq hpre hin
    rw [heq, findMainVerb_append self pre tk post hpre, findMainVerb_head self tk post hin]
  · intro h
    simp [convertIndirectSpeech, findMainVerb_none self sent.tokens h]
  · intro h
    simp [processSentenceB, h]

/-- Witness for C5: in `Sarah wondered if he was safe.` the verb `wondered`
(preceded only by a non-verb token) is found with type Thought; in
`The door creaked open.` no token matches and the sentence becomes a Scene
bubble. -/
theorem c5_governing_verb_witness :
    findMainVerb (extractorWith trivEng) sarahSent.tokens = some (wonderedTok, "thought".data) ∧
    convertIndirectSpeech (extractorWith trivEng) doorSent = none ∧
    processSentenceB (extractorWith trivEng) doorSent =
      ⟨"scene".data, strip doorSent.text, []⟩ := by
  have h := c5_governing_verb (extractorWith trivEng) sarahSent
  have hd := c5_governing_verb (extractorWith trivEng) doorSent
  refine ⟨?_, hd.2.1 (by decide), hd.2.2 (hd.2.1 (by decide))⟩
  have h1 := h.1 [sarahTok] wonderedTok sarahRest rfl (by decide) (by decide)
  rw [h1]
  decide

/-- Claim C6: the Quote Locator returns spans with strictly increasing
start offsets (sorted, no two sharing a start); each returned span is the
first candidate with its start offset in pattern priority order, and every
candidate start offset survives into the result. -/
theorem c6_locator_order (t : Text) :
    (findAllQuotes t).Pairwise (fun a b => a.start < b.start) ∧
    (∀ q ∈ findAllQuotes t,
      (allQuoteCandidates t).find? (fun c => decide (c.start = q.start)) = some q) ∧
    (∀ c ∈ allQuoteCandidates t, ∃ q ∈ findAllQuotes t, q.start = c.start) := by
  refine ⟨?_, ?_, ?_⟩
  · have hle : (findAllQuotes t).Pairwise (fun a b => a.start ≤ b.start) :=
      (pairwise_start_stableSortBy (allQuoteCandidates t)).sublist (dedupByStart_sublist [] _)
    have hne := dedupByStart_pairwise_ne [] (stableSortBy startLe (allQuoteCandidates t))
    exact (hle.and hne).imp (fun h => Nat.lt_of_le_of_ne h.1 h.2)
  · intro q hq
    have h := (mem_dedupByStart_first [] _ q hq).2
    rw [find_eq_head_filter, filter_start_stableSortBy] at h
    rw [find_eq_head_filter]
    exact h
  · intro c hc
    have hc2 : c ∈ stableSortBy startLe (allQuoteCandidates t) :=
      (mem_stableSortBy _ _ _).mpr hc
    rcases dedupByStart_complete [] _ c hc2 with h | h
    · simp at h
    · exact h

/-- Witness for C6 at a concrete paragraph with one quote. -/
theorem c6_locator_order_witness :
    (allQuoteCandidates quoteT).find? (fun c => decide (c.start = q6.start)) = some q6 ∧
    (∃ q ∈ findAllQuotes quoteT, q.start = q6.start) :=
  ⟨(c6_locator_order quoteT).2.1 q6 (by decide),
   (c6_locator_order quoteT).2.2 q6 (by decide)⟩

theorem finishOutput_props (out : Text) (h : ¬ finishOutput out = []) :
    (∀ c, (finishOutput out).head? = some c → c.isLower = false) ∧
    (∃ l, (finishOutput out).getLast? = some l ∧ (l = '.' ∨ l = '!' ∨ l = '?')) ∧
    (∀ l, (capFirst out).getLast? = some l → ¬ (l = '.' ∨ l = '!' ∨ l = '?') →
      finishOutput out = capFirst out ++ ['?']) := by
  cases out with
  | nil => simp [finishOutput, capFirst] at h
  | cons c cs =>
    cases hgl : (Char.toUpper c :: cs).getLast? with
    | none => simp at hgl
    | some l =>
      by_cases hp : l = '.' ∨ l = '!' ∨ l = '?'
      · have hf : finishOutput (c :: cs) = Char.toUpper c :: cs := by
          simp [finishOutput, capFirst, hgl, hp]
        refine ⟨?_, ⟨l, ?_, hp⟩, ?_⟩
        · intro d hd
          rw [hf] at hd
          simp only [List.head?_cons, Option.some.injEq] at hd
          rw [← hd]
          exact isLower_toUpper c
        · rw [hf]
          exact hgl
        · intro l2 hl2 hnp
          rw [show capFirst (c :: cs) = Char.toUpper c :: cs from rfl, hgl] at hl2
          cases hl2
          exact absurd hp hnp
      · have hf : finishOutput (c :: cs) = (Char.toUpper c :: cs) ++ ['?'] := by
          simp only [finishOutput, capFirst, hgl]
          rw [if_neg hp]
        refine ⟨?_, ⟨'?', ?_, by tauto⟩, ?_⟩
        · intro d hd
          rw [hf] at hd
          simp only [List.cons_append, List.head?_cons, Option.some.injEq] at hd
          rw [← hd]
          exact isLower_toUpper c
        · rw [hf]
          exact List.getLast?_concat _
        · intro l2 hl2 hnp
          exact hf

/-- Claim C7: the Person Rewriter maps the clause `he was safe` with empty
character to exactly `I was safe?`; and in general a non-empty rewritten
result starts with an upper-cased (never lower-case) first character, ends
in `.`, `!` or `?`, and has `?` appended exactly when the capitalized
reassembly does not already end in one of those three characters. -/
theorem c7_person_rewrite :
    (∀ (self : ComicBubbleExtractor) (txt ch : Text),
      ¬ convertToFirstPerson self txt ch = [] →
      (∀ c, (convertToFirstPerson self txt ch).head? = some c → c.isLower = false) ∧
      (∃ l, (convertToFirstPerson self txt ch).getLast? = some l ∧
        (l = '.' ∨ l = '!' ∨ l = '?')) ∧
      (∀ l,
        (capFirst (reassemble (rewriteAux ch [] (self.nlp.tokenize txt)))).getLast? = some l →
        ¬ (l = '.' ∨ l = '!' ∨ l = '?') →
        convertToFirstPerson self txt ch =
          capFirst (reassemble (rewriteAux ch [] (self.nlp.tokenize txt))) ++ ['?'])) ∧
    (∀ eng : NlpEngine, eng.tokenize hwsText = hwsTokens →
      convertToFirstPerson (extractorWith eng) hwsText [] = "I was safe?".data) := by
  constructor
  · intro self txt ch h
    exact finishOutput_props (reassemble (rewriteAux ch [] (self.nlp.tokenize txt))) h
  · intro eng h
    show finishOutput (reassemble (rewriteAux [] [] (eng.tokenize hwsText))) = _
    rw [h]
    decide

/-- Witness for C7 at a concrete engine tokenizing `he was safe`. -/
theorem c7_person_rewrite_witness :
    convertToFirstPerson (extractorWith hwsEng) hwsText [] = "I was safe?".data ∧
    (∃ l, (convertToFirstPerson (extractorWith hwsEng) hwsText []).getLast? = some l ∧
      (l = '.' ∨ l = '!' ∨ l = '?')) :=
  ⟨c7_person_rewrite.2 hwsEng rfl,
   (c7_person_rewrite.1 (extractorWith hwsEng) hwsText [] (by decide)).2.1⟩
